import Mathlib

/-
Verification of the AddressWatcher polling client (src/address_watcher.py).

The program keeps a JSON file latest_txs.txt mapping addresses to the hash of
their last observed ERC20 transfer, polls an HTTP API once per watched address
for the most recent transfer, prints a change line and updates the in-memory
mapping when the hash differs from the stored one, and finally rewrites the
whole file.

Shallow embedding conventions:
- JSON values returned by json.load (and written by json.dumps) are the
  inductive type Json; the history file is a FileState (absent, present but
  not valid JSON, or present and parsing to a given Json value).  The pair
  json.dumps / json.load of the standard library is modelled as the identity
  on Json values: to_file stores the value itself.
- Python dicts appearing as JSON objects are association lists with the first
  binding of a key the authoritative one; dict assignment replaces in place.
- The HTTP layer is an explicit environment fetch : String -> FetchResult
  giving, per address, either the decoded result list of the response or a
  transport-level failure (requests exception, or a response without a result
  field, both of which escape the loop uncaught).
- Exceptions are modelled with Except; printed lines (change events and
  no-transaction notices) are accumulated in lists in program order.
-/

namespace AddressWatcherModel

/-- JSON values, the possible results of parsing the history file. -/
inductive Json where
  | str (s : String)
  | num (n : Int)
  | arr (elems : List Json)
  | obj (entries : List (String × Json))

/-- State of the latest_txs.txt file: missing, present but not valid JSON
(json.load raises JSONDecodeError), or present and parsing to a JSON value. -/
inductive FileState where
  | absent
  | malformed
  | parsed (j : Json)

/-- AddressWatcher.load_history: if the file exists, self.history becomes
whatever json.load returns; a JSONDecodeError is caught and the history
becomes the empty dict; a missing file also gives the empty dict. -/
def load_history : FileState → Json
  | .absent => .obj []
  | .malformed => .obj []
  | .parsed j => j

/-- AddressWatcher.to_file: json.dumps(self.history) is written out, fully
replacing the file; the file then parses back to the same JSON value. -/
def to_file (history : Json) : FileState :=
  .parsed history

/-- Whether a JSON value is an object (a Python dict after json.load). -/
def Json.isObj : Json → Bool
  | .obj _ => true
  | _ => false

/-- Dict lookup on a JSON object body, first binding wins (Python dicts have
unique keys, so on states reachable from the program this is dict access). -/
def jget : List (String × Json) → String → Option Json
  | [], _ => none
  | (k, v) :: t, a => if k = a then some v else jget t a

/-- Dict assignment d[a] = v: replace the binding in place if the key is
present, otherwise append a new binding at the end (Python insertion order). -/
def jset : List (String × Json) → String → Json → List (String × Json)
  | [], a, v => [(a, v)]
  | (k, w) :: t, a, v => if k = a then (a, v) :: t else (k, w) :: jset t a v

/-- Python equality test between self.history.get(a) (an arbitrary JSON value
or None) and the string t_hash: true exactly when the value is that string. -/
def optEqStr : Option Json → String → Bool
  | some (.str s), t => s == t
  | _, _ => false

/-- The transfer records of the decoded API response; only the hash field is
consumed by the loop (data['hash']). -/
structure Tx where
  hash : String

/-- Outcome of one call of _get_erc20_txs followed by ['result']: either the
decoded result list, or a transport failure (requests error or a response
without a result field) that escapes the loop uncaught. -/
inductive FetchResult where
  | ok (result : List Tx)
  | transportError

/-- Python exceptions that can escape the per-address loop body. -/
inductive RunError where
  | valueError
  | transport
  | attrError

/-- In-memory state of one run: self.history plus the printed lines, split
into change events (address, hash) and no-transaction notices (address). -/
structure CheckState where
  history : Json
  events : List (String × String)
  notices : List String

/-- Append one no-transaction notice. -/
def addNotice (st : CheckState) (a : String) : CheckState :=
  ⟨st.history, st.events, st.notices ++ [a]⟩

/-- Record a change: print the event and assign self.history[a] = t. -/
def recordChange (st : CheckState) (entries : List (String × Json)) (a t : String) : CheckState :=
  ⟨.obj (jset entries a (.str t)), st.events ++ [(a, t)], st.notices⟩

/-- Body of the loop in AddressWatcher.get_erc20_txs for one address a.
In source order: _get_erc20_txs raises ValueError when the address is empty
(contract_address is None and an empty string is falsy) before any request;
then the request runs; ['result'][0] raises IndexError on an empty list,
which is caught and prints the notice; then self.history.get(a) raises
AttributeError when the loaded history is not a dict; the comparison
self.history.get(a) != t_hash decides between no-op and change. -/
def processAddr (fetch : String → FetchResult) (st : CheckState) (a : String) :
    Except RunError CheckState :=
  if a.isEmpty then .error .valueError
  else
    match fetch a with
    | .transportError => .error .transport
    | .ok [] => .ok (addNotice st a)
    | .ok (tx :: _) =>
      match st.history with
      | .obj entries =>
        if optEqStr (jget entries a) tx.hash then .ok st
        else .ok (recordChange st entries a tx.hash)
      | _ => .error .attrError

/-- AddressWatcher.get_erc20_txs (the spec calls it checkAll): iterate the
loop body over the address list, threading the state; an uncaught exception
aborts the iteration. -/
def get_erc20_txs (fetch : String → FetchResult) :
    List String → CheckState → Except RunError CheckState
  | [], st => .ok st
  | a :: rest, st =>
    match processAddr fetch st a with
    | .ok st1 => get_erc20_txs fetch rest st1
    | .error e => .error e

/-- Values of the query-parameter dict built by _get_erc20_txs. -/
inductive JVal where
  | jstr (s : String)
  | jint (n : Int)
  | jnull
deriving DecidableEq

/-- The dict value entered for an optional string argument (None stays null). -/
def optStrVal : Option String → JVal
  | none => .jnull
  | some s => .jstr s

/-- The dict value entered for an optional int argument. -/
def optIntVal : Option Int → JVal
  | none => .jnull
  | some n => .jint n

/-- Python truthiness of an optional string: None and the empty string are
falsy. -/
def truthyStr : Option String → Bool
  | none => false
  | some s => !s.isEmpty

/-- Python truthiness of an optional int: None and zero are falsy. -/
def truthyInt : Option Int → Bool
  | none => false
  | some n => !(n == 0)

/-- params.pop(k): drop the binding of key k. -/
def removeKey (k : String) (l : List (String × JVal)) : List (String × JVal) :=
  l.filter (fun p => !(p.1 == k))

/-- The params dict of _get_erc20_txs after its conditional pops: the query
parameters of the GET request it issues once the identifier guard passed.
The source fills both the contractaddress and the address entry from the
address argument; entries of falsy arguments are popped. -/
def requestParams (apiKey : String) (contract_address : Option String)
    (address : Option String) (start_block : Option Int) (end_block : Option Int)
    (page : Int) (offset : Int) (sort : String) : List (String × JVal) :=
  let params : List (String × JVal) :=
    [("module", .jstr "account"), ("action", .jstr "tokentx"),
     ("contractaddress", optStrVal address), ("address", optStrVal address),
     ("startblock", optIntVal start_block), ("endblock", optIntVal end_block),
     ("page", .jint page), ("offset", .jint offset),
     ("sort", .jstr sort), ("apikey", .jstr apiKey)]
  let p1 := if !truthyStr contract_address then removeKey "contractaddress" params else params
  let p2 := if !truthyStr address then removeKey "address" p1 else p1
  let p3 := if !truthyInt start_block then removeKey "startblock" p2 else p2
  if !truthyInt end_block then removeKey "endblock" p3 else p3

/-- AddressWatcher._get_erc20_txs: raise ValueError when neither a
contract_address nor an address is supplied (before issuing any request),
otherwise issue the GET with the popped params dict.  The ok value is the
params dict of the issued request; the error value means no request was
issued. -/
def _get_erc20_txs (apiKey : String) (contract_address : Option String)
    (address : Option String) (start_block : Option Int) (end_block : Option Int)
    (page : Int) (offset : Int) (sort : String) :
    Except RunError (List (String × JVal)) :=
  if !truthyStr contract_address && !truthyStr address then .error .valueError
  else .ok (requestParams apiKey contract_address address start_block end_block page offset sort)

/-- The parameters actually present on the wire: the requests library omits
query parameters whose value is None. -/
def sentParams (l : List (String × JVal)) : List (String × JVal) :=
  l.filter (fun p => !(p.2 == JVal.jnull))

/-- Lookup in a query-parameter dict, first binding wins. -/
def plookup : List (String × JVal) → String → Option JVal
  | [], _ => none
  | (k, v) :: t, a => if k = a then some v else plookup t a

/-- Python str.strip of newline characters: drop them from both ends. -/
def stripNl (s : String) : String :=
  ⟨((s.data.dropWhile (fun c => c == '\n')).reverse.dropWhile (fun c => c == '\n')).reverse⟩

/-- Helper for the model of list(set(...)): keep addresses not seen before. -/
def dedupAux : List String → List String → List String
  | [], _ => []
  | a :: t, seen => if a ∈ seen then dedupAux t seen else a :: dedupAux t (a :: seen)

/-- Model of list(set(lines)): duplicates removed.  CPython leaves the order
of a set unspecified; the model fixes first-occurrence order, and the run
facts proved below depend only on membership in the deduplicated list. -/
def dedup (l : List String) : List String :=
  dedupAux l []

/-- The watch-list run builds from the lines of addrs.txt. -/
def watchList (lines : List String) : List String :=
  dedup (lines.map stripNl)

/-- Exceptions that can escape the run function. -/
inductive RunFailure where
  | missingAddrsFile
  | checkFailed (e : RunError)

/-- The printed output of a completed run. -/
structure RunOutput where
  events : List (String × String)
  notices : List String

/-- The run function: fail when addrs.txt is missing, else dedup the stripped
lines, construct the watcher (which loads the history file), iterate the
check loop, and only on normal completion rewrite the history file.  The
returned FileState is the history file after the run: untouched on any
abort, rewritten by to_file on success. -/
def run (addrsFile : Option (List String)) (fetch : String → FetchResult)
    (histFile : FileState) : FileState × Except RunFailure RunOutput :=
  match addrsFile with
  | none => (histFile, .error .missingAddrsFile)
  | some lines =>
    match get_erc20_txs fetch (watchList lines)
        ⟨load_history histFile, [], []⟩ with
    | .error e => (histFile, .error (.checkFailed e))
    | .ok st => (to_file st.history, .ok ⟨st.events, st.notices⟩)

/-- A string-to-string mapping rendered as the JSON object the file holds. -/
def strObj (h : List (String × String)) : Json :=
  .obj (h.map (fun p => (p.1, .str p.2)))

/-- Read a JSON object body back as a string-to-string mapping, refusing
non-string values. -/
def strEntries : List (String × Json) → Option (List (String × String))
  | [] => some []
  | (k, .str v) :: t => (strEntries t).map (fun r => (k, v) :: r)
  | _ => none

/-- Read a JSON value back as a string-to-string mapping. -/
def asStrMap : Json → Option (List (String × String))
  | .obj entries => strEntries entries
  | _ => none

/-- Lookup in a string-to-string mapping. -/
def hget : List (String × String) → String → Option String
  | [], _ => none
  | (k, v) :: t, a => if k = a then some v else hget t a

/-- The history entry of an address in a check state (None when the history
is not a dict or has no such key). -/
def histAt (st : CheckState) (a : String) : Option Json :=
  match st.history with
  | .obj entries => jget entries a
  | _ => none

/-- The change events printed for one address. -/
def eventsFor (st : CheckState) (a : String) : List (String × String) :=
  st.events.filter (fun p => p.1 == a)

/-- The no-transaction notices printed for one address. -/
def noticesFor (st : CheckState) (a : String) : List String :=
  st.notices.filter (fun n => n == a)

/-- The Python comparison helper is true exactly on the matching string. -/
theorem optEqStr_true_iff (o : Option Json) (t : String) :
    optEqStr o t = true ↔ o = some (.str t) := by
  cases o with
  | none => simp [optEqStr]
  | some j => cases j <;> simp [optEqStr]

/-- Dict assignment followed by lookup. -/
theorem jget_jset (e : List (String × Json)) (b : String) (v : Json) (a : String) :
    jget (jset e b v) a = if b = a then some v else jget e a := by
  induction e with
  | nil => simp [jset, jget]
  | cons p t ih =>
    obtain ⟨k, w⟩ := p
    by_cases hkb : k = b
    · subst hkb
      by_cases hka : k = a <;> simp [jset, jget, hka]
    · by_cases hka : k = a
      · subst hka
        have hba : ¬ b = k := fun hh => hkb hh.symm
        simp [jset, jget, hkb, hba]
      · simp [jset, jget, hkb, hka, ih]

/-- Lookup in the JSON rendering of a string-to-string mapping. -/
theorem jget_map_str (h : List (String × String)) (a : String) :
    jget (h.map (fun p => (p.1, Json.str p.2))) a = (hget h a).map Json.str := by
  induction h with
  | nil => simp [jget, hget]
  | cons p t ih =>
    by_cases hk : p.1 = a <;> simp [jget, hget, hk, ih]

/-- The JSON rendering of a string-to-string mapping reads back unchanged. -/
theorem strEntries_map (h : List (String × String)) :
    strEntries (h.map (fun p => (p.1, Json.str p.2))) = some h := by
  induction h with
  | nil => rfl
  | cons p t ih => simp [strEntries, ih]

/-- asStrMap inverts strObj. -/
theorem asStrMap_strObj (h : List (String × String)) :
    asStrMap (strObj h) = some h := by
  simp [asStrMap, strObj, strEntries_map]

/-- Reading a JSON object body as a string map determines it. -/
theorem strEntries_eq_some (entries : List (String × Json)) (h : List (String × String))
    (he : strEntries entries = some h) :
    entries = h.map (fun p => (p.1, Json.str p.2)) := by
  induction entries generalizing h with
  | nil =>
    simp [strEntries] at he
    subst he
    rfl
  | cons p t ih =>
    obtain ⟨k, v⟩ := p
    cases v with
    | str s =>
      cases hs : strEntries t with
      | none => simp [strEntries, hs] at he
      | some r =>
        simp [strEntries, hs] at he
        subst he
        simp [ih r hs]
    | num n => simp [strEntries] at he
    | arr es => simp [strEntries] at he
    | obj es => simp [strEntries] at he

/-- Any JSON value that reads back as a string map is the rendering of it. -/
theorem asStrMap_eq_some (j : Json) (h : List (String × String))
    (hj : asStrMap j = some h) : j = strObj h := by
  cases j with
  | obj entries => simp [strObj, strEntries_eq_some entries h (by simpa [asStrMap] using hj)]
  | str s => simp [asStrMap] at hj
  | num n => simp [asStrMap] at hj
  | arr es => simp [asStrMap] at hj

/-- Loop body, empty-address branch: the ValueError of _get_erc20_txs. -/
theorem processAddr_empty (fetch : String → FetchResult) (st : CheckState) (a : String)
    (ha : a.isEmpty = true) : processAddr fetch st a = .error .valueError := by
  simp [processAddr, ha]

/-- Loop body, transport-failure branch. -/
theorem processAddr_transport (fetch : String → FetchResult) (st : CheckState) (a : String)
    (ha : a.isEmpty = false) (hf : fetch a = .transportError) :
    processAddr fetch st a = .error .transport := by
  simp [processAddr, ha, hf]

/-- Loop body, empty-result branch: IndexError caught, notice printed. -/
theorem processAddr_noTx (fetch : String → FetchResult) (st : CheckState) (a : String)
    (ha : a.isEmpty = false) (hf : fetch a = .ok []) :
    processAddr fetch st a = .ok (addNotice st a) := by
  simp [processAddr, ha, hf]

/-- Loop body, matching-hash branch: no event, no mutation. -/
theorem processAddr_hit (fetch : String → FetchResult) (st : CheckState) (a : String)
    (tx : Tx) (l : List Tx) (entries : List (String × Json))
    (ha : a.isEmpty = false) (hf : fetch a = .ok (tx :: l))
    (hst : st.history = .obj entries) (hh : jget entries a = some (.str tx.hash)) :
    processAddr fetch st a = .ok st := by
  simp [processAddr, ha, hf, hst, optEqStr, hh]

/-- Loop body, differing-hash branch: event printed, entry assigned. -/
theorem processAddr_miss (fetch : String → FetchResult) (st : CheckState) (a : String)
    (tx : Tx) (l : List Tx) (entries : List (String × Json))
    (ha : a.isEmpty = false) (hf : fetch a = .ok (tx :: l))
    (hst : st.history = .obj entries) (hh : jget entries a ≠ some (.str tx.hash)) :
    processAddr fetch st a = .ok (recordChange st entries a tx.hash) := by
  have hb : optEqStr (jget entries a) tx.hash = false := by
    cases hb : optEqStr (jget entries a) tx.hash with
    | false => rfl
    | true => exact absurd ((optEqStr_true_iff _ _).mp hb) hh
  simp [processAddr, ha, hf, hst, hb]

/-- Every normal completion of the loop body is a notice, a no-op, or a
recorded change. -/
theorem processAddr_ok_cases (fetch : String → FetchResult) (st : CheckState) (a : String)
    (st1 : CheckState) (h : processAddr fetch st a = .ok st1) :
    st1 = addNotice st a ∨ st1 = st ∨
      ∃ entries t, st.history = .obj entries ∧ st1 = recordChange st entries a t := by
  by_cases ha : a.isEmpty
  · rw [processAddr_empty fetch st a ha] at h
    exact absurd h (by simp)
  · rw [Bool.not_eq_true] at ha
    cases hf : fetch a with
    | transportError =>
      rw [processAddr_transport fetch st a ha hf] at h
      exact absurd h (by simp)
    | ok txs =>
      cases txs with
      | nil =>
        rw [processAddr_noTx fetch st a ha hf] at h
        exact Or.inl (by injection h with h; exact h.symm)
      | cons tx l =>
        cases hst : st.history with
        | obj entries =>
          by_cases hh : jget entries a = some (.str tx.hash)
          · rw [processAddr_hit fetch st a tx l entries ha hf hst hh] at h
            exact Or.inr (Or.inl (by injection h with h; exact h.symm))
          · rw [processAddr_miss fetch st a tx l entries ha hf hst hh] at h
            refine Or.inr (Or.inr ⟨entries, tx.hash, rfl, ?_⟩)
            injection h with h
            exact h.symm
        | str s => simp [processAddr, ha, hf, hst] at h
        | num n => simp [processAddr, ha, hf, hst] at h
        | arr es => simp [processAddr, ha, hf, hst] at h

/-- One loop step never touches the history entry of another address. -/
theorem processAddr_histAt_frame (fetch : String → FetchResult) (st : CheckState)
    (a : String) (st1 : CheckState) (b : String)
    (h : processAddr fetch st a = .ok st1) (hb : b ≠ a) :
    histAt st1 b = histAt st b := by
  rcases processAddr_ok_cases fetch st a st1 h with h1 | h1 | ⟨entries, t, hst, h1⟩
  · subst h1; rfl
  · subst h1; rfl
  · subst h1
    have hab : ¬ a = b := fun hh => hb hh.symm
    simp [histAt, recordChange, hst, jget_jset, hab]

/-- One loop step never deletes a history entry. -/
theorem processAddr_histAt_some (fetch : String → FetchResult) (st : CheckState)
    (a : String) (st1 : CheckState) (b : String) (w : Json)
    (h : processAddr fetch st a = .ok st1) (hw : histAt st b = some w) :
    ∃ w2, histAt st1 b = some w2 := by
  rcases processAddr_ok_cases fetch st a st1 h with h1 | h1 | ⟨entries, t, hst, h1⟩
  · subst h1; exact ⟨w, hw⟩
  · subst h1; exact ⟨w, hw⟩
  · subst h1
    by_cases hab : a = b
    · subst hab
      exact ⟨.str t, by simp [histAt, recordChange, jget_jset]⟩
    · exact ⟨w, by simpa [histAt, recordChange, jget_jset, hab, hst] using hw⟩

/-- One loop step appends only events of the processed address. -/
theorem processAddr_events (fetch : String → FetchResult) (st : CheckState)
    (a : String) (st1 : CheckState) (h : processAddr fetch st a = .ok st1) :
    ∃ ev, st1.events = st.events ++ ev ∧ ∀ p ∈ ev, p.1 = a := by
  rcases processAddr_ok_cases fetch st a st1 h with h1 | h1 | ⟨entries, t, hst, h1⟩
  · exact ⟨[], by simp [h1, addNotice]⟩
  · exact ⟨[], by simp [h1]⟩
  · exact ⟨[(a, t)], by simp [h1, recordChange]⟩

/-- One loop step appends only notices of the processed address. -/
theorem processAddr_notices (fetch : String → FetchResult) (st : CheckState)
    (a : String) (st1 : CheckState) (h : processAddr fetch st a = .ok st1) :
    ∃ ns, st1.notices = st.notices ++ ns ∧ ∀ n ∈ ns, n = a := by
  rcases processAddr_ok_cases fetch st a st1 h with h1 | h1 | ⟨entries, t, hst, h1⟩
  · exact ⟨[a], by simp [h1, addNotice]⟩
  · exact ⟨[], by simp [h1]⟩
  · exact ⟨[], by simp [h1, recordChange]⟩

/-- One loop step keeps the history a dict. -/
theorem processAddr_isObj (fetch : String → FetchResult) (st : CheckState)
    (a : String) (st1 : CheckState) (h : processAddr fetch st a = .ok st1)
    (hobj : st.history.isObj = true) : st1.history.isObj = true := by
  rcases processAddr_ok_cases fetch st a st1 h with h1 | h1 | ⟨entries, t, hst, h1⟩
  · subst h1; exact hobj
  · subst h1; exact hobj
  · subst h1; rfl

/-- Unfolding the loop after a successful step. -/
theorem get_erc20_txs_cons_ok (fetch : String → FetchResult) (a : String)
    (rest : List String) (st st1 : CheckState) (h : processAddr fetch st a = .ok st1) :
    get_erc20_txs fetch (a :: rest) st = get_erc20_txs fetch rest st1 := by
  simp [get_erc20_txs, h]

/-- Unfolding the loop at a failing step. -/
theorem get_erc20_txs_cons_err (fetch : String → FetchResult) (a : String)
    (rest : List String) (st : CheckState) (e : RunError)
    (h : processAddr fetch st a = .error e) :
    get_erc20_txs fetch (a :: rest) st = .error e := by
  simp [get_erc20_txs, h]

/-- The loop over a concatenation runs the two halves in sequence. -/
theorem get_erc20_txs_append (fetch : String → FetchResult) (xs ys : List String)
    (st : CheckState) :
    get_erc20_txs fetch (xs ++ ys) st =
      match get_erc20_txs fetch xs st with
      | .ok st1 => get_erc20_txs fetch ys st1
      | .error e => .error e := by
  induction xs generalizing st with
  | nil => simp [get_erc20_txs]
  | cons a t ih =>
    cases h : processAddr fetch st a with
    | ok st1 =>
      rw [List.cons_append, get_erc20_txs_cons_ok fetch a (t ++ ys) st st1 h,
        get_erc20_txs_cons_ok fetch a t st st1 h, ih]
    | error e =>
      rw [List.cons_append, get_erc20_txs_cons_err fetch a (t ++ ys) st e h,
        get_erc20_txs_cons_err fetch a t st e h]

/-- The loop never touches history entries of addresses outside its list. -/
theorem get_erc20_txs_histAt_frame (fetch : String → FetchResult) (l : List String)
    (st st1 : CheckState) (h : get_erc20_txs fetch l st = .ok st1)
    (b : String) (hb : b ∉ l) : histAt st1 b = histAt st b := by
  induction l generalizing st with
  | nil =>
    injection h with h
    subst h
    rfl
  | cons a t ih =>
    cases hp : processAddr fetch st a with
    | error e => rw [get_erc20_txs_cons_err fetch a t st e hp] at h; exact absurd h (by simp)
    | ok stm =>
      rw [get_erc20_txs_cons_ok fetch a t st stm hp] at h
      have hbt : b ∉ t := fun hh => hb (List.mem_cons_of_mem a hh)
      have hba : b ≠ a := fun hh => hb (hh ▸ List.mem_cons_self a t)
      rw [ih stm h hbt, processAddr_histAt_frame fetch st a stm b hp hba]

/-- The loop never deletes a history entry. -/
theorem get_erc20_txs_histAt_some (fetch : String → FetchResult) (l : List String)
    (st st1 : CheckState) (h : get_erc20_txs fetch l st = .ok st1)
    (b : String) (w : Json) (hw : histAt st b = some w) :
    ∃ w2, histAt st1 b = some w2 := by
  induction l generalizing st w with
  | nil =>
    injection h with h
    subst h
    exact ⟨w, hw⟩
  | cons a t ih =>
    cases hp : processAddr fetch st a with
    | error e => rw [get_erc20_txs_cons_err fetch a t st e hp] at h; exact absurd h (by simp)
    | ok stm =>
      rw [get_erc20_txs_cons_ok fetch a t st stm hp] at h
      obtain ⟨w1, hw1⟩ := processAddr_histAt_some fetch st a stm b w hp hw
      exact ih stm h w1 hw1

/-- The loop appends only events of addresses in its list. -/
theorem get_erc20_txs_events (fetch : String → FetchResult) (l : List String)
    (st st1 : CheckState) (h : get_erc20_txs fetch l st = .ok st1) :
    ∃ ev, st1.events = st.events ++ ev ∧ ∀ p ∈ ev, p.1 ∈ l := by
  induction l generalizing st with
  | nil =>
    injection h with h
    subst h
    exact ⟨[], by simp⟩
  | cons a t ih =>
    cases hp : processAddr fetch st a with
    | error e => rw [get_erc20_txs_cons_err fetch a t st e hp] at h; exact absurd h (by simp)
    | ok stm =>
      rw [get_erc20_txs_cons_ok fetch a t st stm hp] at h
      obtain ⟨ev1, hev1, hm1⟩ := processAddr_events fetch st a stm hp
      obtain ⟨ev2, hev2, hm2⟩ := ih stm h
      refine ⟨ev1 ++ ev2, by simp [hev2, hev1], ?_⟩
      intro p hp2
      rcases List.mem_append.mp hp2 with h1 | h2
      · exact (hm1 p h1) ▸ List.mem_cons_self a t
      · exact List.mem_cons_of_mem a (hm2 p h2)

/-- The loop appends only notices of addresses in its list. -/
theorem get_erc20_txs_notices (fetch : String → FetchResult) (l : List String)
    (st st1 : CheckState) (h : get_erc20_txs fetch l st = .ok st1) :
    ∃ ns, st1.notices = st.notices ++ ns ∧ ∀ n ∈ ns, n ∈ l := by
  induction l generalizing st with
  | nil =>
    injection h with h
    subst h
    exact ⟨[], by simp⟩
  | cons a t ih =>
    cases hp : processAddr fetch st a with
    | error e => rw [get_erc20_txs_cons_err fetch a t st e hp] at h; exact absurd h (by simp)
    | ok stm =>
      rw [get_erc20_txs_cons_ok fetch a t st stm hp] at h
      obtain ⟨ns1, hns1, hm1⟩ := processAddr_notices fetch st a stm hp
      obtain ⟨ns2, hns2, hm2⟩ := ih stm h
      refine ⟨ns1 ++ ns2, by simp [hns2, hns1], ?_⟩
      intro n hn2
      rcases List.mem_append.mp hn2 with h1 | h2
      · exact (hm1 n h1) ▸ List.mem_cons_self a t
      · exact List.mem_cons_of_mem a (hm2 n h2)

/-- The loop keeps the history a dict. -/
theorem get_erc20_txs_isObj (fetch : String → FetchResult) (l : List String)
    (st st1 : CheckState) (h : get_erc20_txs fetch l st = .ok st1)
    (hobj : st.history.isObj = true) : st1.history.isObj = true := by
  induction l generalizing st with
  | nil =>
    injection h with h
    subst h
    exact hobj
  | cons a t ih =>
    cases hp : processAddr fetch st a with
    | error e => rw [get_erc20_txs_cons_err fetch a t st e hp] at h; exact absurd h (by simp)
    | ok stm =>
      rw [get_erc20_txs_cons_ok fetch a t st stm hp] at h
      exact ih stm h (processAddr_isObj fetch st a stm hp hobj)

/-- Events of an address outside the processed list are unchanged. -/
theorem eventsFor_frame (fetch : String → FetchResult) (l : List String)
    (st st1 : CheckState) (a : String)
    (h : get_erc20_txs fetch l st = .ok st1) (ha : a ∉ l) :
    eventsFor st1 a = eventsFor st a := by
  obtain ⟨ev, hev, hmem⟩ := get_erc20_txs_events fetch l st st1 h
  have hnil : ev.filter (fun p => p.1 == a) = [] := by
    rw [List.filter_eq_nil_iff]
    intro p hp
    simp only [beq_iff_eq]
    intro hpa
    exact ha (hpa ▸ hmem p hp)
  simp [eventsFor, hev, List.filter_append, hnil]

/-- Notices of an address outside the processed list are unchanged. -/
theorem noticesFor_frame (fetch : String → FetchResult) (l : List String)
    (st st1 : CheckState) (a : String)
    (h : get_erc20_txs fetch l st = .ok st1) (ha : a ∉ l) :
    noticesFor st1 a = noticesFor st a := by
  obtain ⟨ns, hns, hmem⟩ := get_erc20_txs_notices fetch l st st1 h
  have hnil : ns.filter (fun n => n == a) = [] := by
    rw [List.filter_eq_nil_iff]
    intro n hn
    simp only [beq_iff_eq]
    intro hna
    exact ha (hna ▸ hmem n hn)
  simp [noticesFor, hns, List.filter_append, hnil]

/-- C2 counterexample: a history file whose content is valid JSON but not an
object (here the number 42) is returned by load_history as-is, so
load_history neither returns a mapping nor replaces the value by the empty
mapping, refuting the claim as stated. -/
theorem load_history_non_mapping_cex :
    load_history (FileState.parsed (Json.num 42)) = Json.num 42 ∧
    (Json.num 42).isObj = false :=
  ⟨rfl, rfl⟩

/-- C2 (amended): load_history never throws; a missing file and a file that
is not valid JSON both give the empty mapping, and a file parsing to any
JSON value gives that value back unvalidated, so the result is a mapping
only when the parsed value is one. -/
theorem load_history_amended :
    load_history FileState.absent = Json.obj [] ∧
    load_history FileState.malformed = Json.obj [] ∧
    ∀ j, load_history (FileState.parsed j) = j :=
  ⟨rfl, rfl, fun _ => rfl⟩

/-- C3: persisting any string-to-string history mapping with to_file and
loading it back with load_history on a fresh instance yields an equal
mapping. -/
theorem to_file_load_history_roundtrip (h : List (String × String)) :
    asStrMap (load_history (to_file (strObj h))) = some h :=
  asStrMap_strObj h

/-- C7: calling the fetch operation with neither a contract address nor an
address (each absent or empty, hence falsy) raises ValueError; the error
is returned in place of request parameters, i.e. before any HTTP request
is issued. -/
theorem _get_erc20_txs_requires_identifier (apiKey : String)
    (contract_address address : Option String) (start_block end_block : Option Int)
    (page offset : Int) (sort : String)
    (hca : truthyStr contract_address = false) (ha : truthyStr address = false) :
    _get_erc20_txs apiKey contract_address address start_block end_block page offset sort
      = .error .valueError := by
  simp [_get_erc20_txs, hca, ha]

/-- C7 witness: the fail-fast theorem applied at a concrete call with an
absent contract address and an empty address string. -/
theorem _get_erc20_txs_requires_identifier_witness :
    _get_erc20_txs "KEY" none (some "") none none 1 10000 "asc" = .error .valueError :=
  _get_erc20_txs_requires_identifier "KEY" none (some "") none none 1 10000 "asc"
    rfl (by decide)

/-- After a successful pass, every listed address is non-empty and either
fetches no transfers or has its latest hash recorded in the history. -/
theorem get_erc20_txs_sync (fetch : String → FetchResult) (l : List String)
    (st st1 : CheckState) (h : get_erc20_txs fetch l st = .ok st1) :
    ∀ a ∈ l, a.isEmpty = false ∧
      (fetch a = .ok [] ∨
        ∃ tx xs, fetch a = .ok (tx :: xs) ∧ histAt st1 a = some (.str tx.hash)) := by
  induction l generalizing st with
  | nil => intro a hal; exact absurd hal (List.not_mem_nil a)
  | cons b t ih =>
    cases hp : processAddr fetch st b with
    | error e =>
      rw [get_erc20_txs_cons_err fetch b t st e hp] at h
      exact absurd h (by simp)
    | ok stm =>
      rw [get_erc20_txs_cons_ok fetch b t st stm hp] at h
      intro a hal
      have hbE : b.isEmpty = false := by
        by_contra hbe
        rw [Bool.not_eq_false] at hbe
        rw [processAddr_empty fetch st b hbe] at hp
        exact absurd hp (by simp)
      rcases List.mem_cons.mp hal with rfl | hat
      · refine ⟨hbE, ?_⟩
        cases hfb : fetch a with
        | transportError =>
          rw [processAddr_transport fetch st a hbE hfb] at hp
          exact absurd hp (by simp)
        | ok txs =>
          cases txs with
          | nil => exact Or.inl rfl
          | cons tx xs =>
            right
            refine ⟨tx, xs, rfl, ?_⟩
            have hstm : histAt stm a = some (.str tx.hash) := by
              cases hsp : st.history with
              | obj entries =>
                by_cases hh : jget entries a = some (.str tx.hash)
                · rw [processAddr_hit fetch st a tx xs entries hbE hfb hsp hh] at hp
                  injection hp with hp
                  subst hp
                  simp [histAt, hsp, hh]
                · rw [processAddr_miss fetch st a tx xs entries hbE hfb hsp hh] at hp
                  injection hp with hp
                  subst hp
                  simp [histAt, recordChange, jget_jset]
              | str s => simp [processAddr, hbE, hfb, hsp] at hp
              | num n => simp [processAddr, hbE, hfb, hsp] at hp
              | arr es => simp [processAddr, hbE, hfb, hsp] at hp
            by_cases hmem : a ∈ t
            · rcases (ih stm h a hmem).2 with hnil | ⟨tx2, xs2, hf2, hh2⟩
              · rw [hfb] at hnil
                exact absurd hnil (by simp)
              · rw [hfb] at hf2
                injection hf2 with hf2
                have h1 : tx = tx2 := ((List.cons.injEq tx xs tx2 xs2).mp hf2).1
                rw [← h1] at hh2
                exact hh2
            · rw [get_erc20_txs_histAt_frame fetch t stm st1 h a hmem]
              exact hstm
      · exact ih stm h a hat

/-- A pass over addresses whose latest hashes are already recorded changes
nothing but the notice list. -/
theorem get_erc20_txs_stable (fetch : String → FetchResult) (l : List String)
    (st : CheckState)
    (hs : ∀ a ∈ l, a.isEmpty = false ∧
      (fetch a = .ok [] ∨
        ∃ tx xs, fetch a = .ok (tx :: xs) ∧ histAt st a = some (.str tx.hash))) :
    ∃ ns, get_erc20_txs fetch l st = .ok ⟨st.history, st.events, st.notices ++ ns⟩ := by
  induction l generalizing st with
  | nil => exact ⟨[], by simp [get_erc20_txs]⟩
  | cons a t ih =>
    obtain ⟨haE, hcase⟩ := hs a (List.mem_cons_self a t)
    rcases hcase with hnil | ⟨tx, xs, hf, hh⟩
    · rw [get_erc20_txs_cons_ok fetch a t st (addNotice st a)
        (processAddr_noTx fetch st a haE hnil)]
      have hs2 : ∀ b ∈ t, b.isEmpty = false ∧
          (fetch b = .ok [] ∨ ∃ tx xs, fetch b = .ok (tx :: xs) ∧
            histAt (addNotice st a) b = some (.str tx.hash)) := by
        intro b hb
        exact hs b (List.mem_cons_of_mem a hb)
      obtain ⟨ns, hns⟩ := ih (addNotice st a) hs2
      refine ⟨a :: ns, ?_⟩
      rw [hns]
      simp [addNotice]
    · have hobj : ∃ entries, st.history = .obj entries ∧
          jget entries a = some (.str tx.hash) := by
        cases hsp : st.history with
        | obj entries => exact ⟨entries, rfl, by simpa [histAt, hsp] using hh⟩
        | str s => simp [histAt, hsp] at hh
        | num n => simp [histAt, hsp] at hh
        | arr es => simp [histAt, hsp] at hh
      obtain ⟨entries, hsp, hje⟩ := hobj
      rw [get_erc20_txs_cons_ok fetch a t st st
        (processAddr_hit fetch st a tx xs entries haE hf hsp hje)]
      exact ih st (fun b hb => hs b (List.mem_cons_of_mem a hb))

/-- C1: for an address a of the (duplicate-free) watch-list whose fetch
yields a latest transfer with hash tx.hash, a successful checkAll pass
starting from history h0 prints exactly one change event (a, tx.hash) and
sets the history entry of a to that hash when the hash differs from the
stored entry or the entry is absent; when it matches the stored entry, no
event for a is printed and the entry of a is unchanged. -/
theorem get_erc20_txs_change_detection (fetch : String → FetchResult)
    (pre post : List String) (a : String) (h0 : List (String × String))
    (tx : Tx) (xs : List Tx) (st1 : CheckState)
    (hpre : a ∉ pre) (hpost : a ∉ post) (ha : a.isEmpty = false)
    (hf : fetch a = .ok (tx :: xs))
    (hrun : get_erc20_txs fetch (pre ++ a :: post) ⟨strObj h0, [], []⟩ = .ok st1) :
    (hget h0 a ≠ some tx.hash →
      eventsFor st1 a = [(a, tx.hash)] ∧ histAt st1 a = some (.str tx.hash)) ∧
    (hget h0 a = some tx.hash →
      eventsFor st1 a = [] ∧ histAt st1 a = histAt ⟨strObj h0, [], []⟩ a) := by
  cases hmid : get_erc20_txs fetch pre ⟨strObj h0, [], []⟩ with
  | error e =>
    rw [get_erc20_txs_append, hmid] at hrun
    dsimp only at hrun
    exact absurd hrun (by simp)
  | ok stp =>
    rw [get_erc20_txs_append, hmid] at hrun
    dsimp only at hrun
    have hhist : histAt stp a = (hget h0 a).map Json.str := by
      rw [get_erc20_txs_histAt_frame fetch pre _ stp hmid a hpre]
      simp [histAt, strObj, jget_map_str]
    have hev : eventsFor stp a = [] := by
      rw [eventsFor_frame fetch pre _ stp a hmid hpre]
      rfl
    have hobj : stp.history.isObj = true :=
      get_erc20_txs_isObj fetch pre _ stp hmid (by simp [strObj, Json.isObj])
    have hentries : ∃ entries, stp.history = .obj entries := by
      cases hsp : stp.history with
      | obj entries => exact ⟨entries, rfl⟩
      | str s => rw [hsp] at hobj; simp [Json.isObj] at hobj
      | num n => rw [hsp] at hobj; simp [Json.isObj] at hobj
      | arr es => rw [hsp] at hobj; simp [Json.isObj] at hobj
    obtain ⟨entries, hsp⟩ := hentries
    have hje : jget entries a = (hget h0 a).map Json.str := by
      rw [← hhist]
      simp [histAt, hsp]
    constructor
    · intro hne
      have hmiss : jget entries a ≠ some (.str tx.hash) := by
        rw [hje]
        cases hh0 : hget h0 a with
        | none => simp
        | some v =>
          dsimp only [Option.map]
          intro hv
          injection hv with hv
          injection hv with hv
          exact hne (hh0 ▸ congrArg some hv)
      rw [get_erc20_txs_cons_ok fetch a post stp _
        (processAddr_miss fetch stp a tx xs entries ha hf hsp hmiss)] at hrun
      constructor
      · rw [eventsFor_frame fetch post _ st1 a hrun hpost]
        have hev2 : stp.events.filter (fun p => p.1 == a) = [] := hev
        simp [eventsFor, recordChange, List.filter_append, hev2]
      · rw [get_erc20_txs_histAt_frame fetch post _ st1 hrun a hpost]
        simp [histAt, recordChange, jget_jset]
    · intro heq
      have hhit : jget entries a = some (.str tx.hash) := by
        rw [hje, heq]
        rfl
      rw [get_erc20_txs_cons_ok fetch a post stp stp
        (processAddr_hit fetch stp a tx xs entries ha hf hsp hhit)] at hrun
      constructor
      · rw [eventsFor_frame fetch post stp st1 a hrun hpost]
        exact hev
      · rw [get_erc20_txs_histAt_frame fetch post stp st1 hrun a hpost, hhist]
        simp [histAt, strObj, jget_map_str]

/-- C1 witness: one watched address, empty starting history, a fetch
returning hash h1; the pass prints the single event and records the hash. -/
theorem get_erc20_txs_change_detection_witness :
    (hget ([] : List (String × String)) "0xa" ≠ some "h1" →
      eventsFor ⟨Json.obj [("0xa", Json.str "h1")], [("0xa", "h1")], []⟩ "0xa"
          = [("0xa", "h1")] ∧
      histAt ⟨Json.obj [("0xa", Json.str "h1")], [("0xa", "h1")], []⟩ "0xa"
          = some (.str "h1")) ∧
    (hget ([] : List (String × String)) "0xa" = some "h1" →
      eventsFor ⟨Json.obj [("0xa", Json.str "h1")], [("0xa", "h1")], []⟩ "0xa" = [] ∧
      histAt ⟨Json.obj [("0xa", Json.str "h1")], [("0xa", "h1")], []⟩ "0xa"
          = histAt ⟨strObj [], [], []⟩ "0xa") :=
  get_erc20_txs_change_detection (fun _ => .ok [⟨"h1"⟩]) [] [] "0xa" [] ⟨"h1"⟩ []
    ⟨Json.obj [("0xa", Json.str "h1")], [("0xa", "h1")], []⟩
    (by simp) (by simp) (by decide) rfl rfl

/-- C4: running checkAll twice with the same fetch environment (no new
on-chain activity) prints zero change events on the second pass and leaves
the history unchanged. -/
theorem get_erc20_txs_idempotent (fetch : String → FetchResult) (addrs : List String)
    (h0 : List (String × String)) (st1 : CheckState)
    (h1 : get_erc20_txs fetch addrs ⟨strObj h0, [], []⟩ = .ok st1) :
    ∃ st2, get_erc20_txs fetch addrs ⟨st1.history, [], []⟩ = .ok st2 ∧
      st2.events = [] ∧ st2.history = st1.history := by
  have hsync := get_erc20_txs_sync fetch addrs _ st1 h1
  obtain ⟨ns, hns⟩ := get_erc20_txs_stable fetch addrs ⟨st1.history, [], []⟩
    (fun a hal => hsync a hal)
  exact ⟨⟨st1.history, [], ns⟩, hns, rfl, rfl⟩

/-- C4 witness: the idempotence theorem applied to a one-address run whose
first pass records hash h. -/
theorem get_erc20_txs_idempotent_witness :
    ∃ st2, get_erc20_txs (fun _ => .ok [⟨"h"⟩]) ["0xa"]
        ⟨(⟨Json.obj [("0xa", Json.str "h")], [("0xa", "h")], []⟩ : CheckState).history,
          [], []⟩ = .ok st2 ∧
      st2.events = [] ∧
      st2.history = (⟨Json.obj [("0xa", Json.str "h")], [("0xa", "h")], []⟩ : CheckState).history :=
  get_erc20_txs_idempotent (fun _ => .ok [⟨"h"⟩]) ["0xa"] []
    ⟨Json.obj [("0xa", Json.str "h")], [("0xa", "h")], []⟩ rfl

/-- C5: an address whose fetch yields an empty result list never aborts the
loop body: processing it only appends the single no-transaction notice, and
a successful checkAll pass prints exactly one notice for it, prints no
change event for it, and leaves its history entry exactly as loaded (absent
entries stay absent). -/
theorem get_erc20_txs_no_tx_isolation (fetch : String → FetchResult)
    (pre post : List String) (a : String) (h0 : List (String × String))
    (st1 : CheckState)
    (hpre : a ∉ pre) (hpost : a ∉ post) (ha : a.isEmpty = false)
    (hf : fetch a = .ok []) :
    (∀ st, processAddr fetch st a = .ok (addNotice st a)) ∧
    (get_erc20_txs fetch (pre ++ a :: post) ⟨strObj h0, [], []⟩ = .ok st1 →
      noticesFor st1 a = [a] ∧ eventsFor st1 a = [] ∧
      histAt st1 a = (hget h0 a).map Json.str) := by
  constructor
  · intro st
    exact processAddr_noTx fetch st a ha hf
  · intro hrun
    cases hmid : get_erc20_txs fetch pre ⟨strObj h0, [], []⟩ with
    | error e =>
      rw [get_erc20_txs_append, hmid] at hrun
      dsimp only at hrun
      exact absurd hrun (by simp)
    | ok stp =>
      rw [get_erc20_txs_append, hmid] at hrun
      dsimp only at hrun
      rw [get_erc20_txs_cons_ok fetch a post stp (addNotice stp a)
        (processAddr_noTx fetch stp a ha hf)] at hrun
      have hns : noticesFor stp a = [] := by
        rw [noticesFor_frame fetch pre _ stp a hmid hpre]
        rfl
      have hev : eventsFor stp a = [] := by
        rw [eventsFor_frame fetch pre _ stp a hmid hpre]
        rfl
      refine ⟨?_, ?_, ?_⟩
      · rw [noticesFor_frame fetch post _ st1 a hrun hpost]
        have hns2 : stp.notices.filter (fun n => n == a) = [] := hns
        simp [noticesFor, addNotice, List.filter_append, hns2]
      · rw [eventsFor_frame fetch post _ st1 a hrun hpost]
        exact hev
      · rw [get_erc20_txs_histAt_frame fetch post _ st1 hrun a hpost]
        have : histAt (addNotice stp a) a = histAt stp a := rfl
        rw [this, get_erc20_txs_histAt_frame fetch pre _ stp hmid a hpre]
        simp [histAt, strObj, jget_map_str]

/-- C5 witness: one watched address with no transfers; the pass prints the
single notice, no event, and creates no history entry. -/
theorem get_erc20_txs_no_tx_isolation_witness :
    noticesFor ⟨strObj [], [], ["0xa"]⟩ "0xa" = ["0xa"] ∧
    eventsFor ⟨strObj [], [], ["0xa"]⟩ "0xa" = [] ∧
    histAt ⟨strObj [], [], ["0xa"]⟩ "0xa" = (hget [] "0xa").map Json.str :=
  (get_erc20_txs_no_tx_isolation (fun _ => .ok []) [] [] "0xa" []
    ⟨strObj [], [], ["0xa"]⟩ (by simp) (by simp) (by decide) rfl).2 rfl

/-- Deduplication keeps every member not yet seen. -/
theorem mem_dedupAux (l : List String) (seen : List String) (a : String)
    (hal : a ∈ l) (hs : a ∉ seen) : a ∈ dedupAux l seen := by
  induction l generalizing seen with
  | nil => exact absurd hal (List.not_mem_nil a)
  | cons b t ih =>
    by_cases hb : b ∈ seen
    · rw [dedupAux, if_pos hb]
      rcases List.mem_cons.mp hal with rfl | hat
      · exact absurd hb hs
      · exact ih seen hat hs
    · rw [dedupAux, if_neg hb]
      rcases List.mem_cons.mp hal with rfl | hat
      · exact List.mem_cons_self a _
      · by_cases hab : a = b
        · exact hab ▸ List.mem_cons_self b _
        · have hsb : a ∉ b :: seen := by
            intro hh
            rcases List.mem_cons.mp hh with h1 | h1
            · exact hab h1
            · exact hs h1
          exact List.mem_cons_of_mem b (ih (b :: seen) hat hsb)

/-- Deduplication preserves membership. -/
theorem mem_dedup (l : List String) (a : String) (hal : a ∈ l) : a ∈ dedup l :=
  mem_dedupAux l [] a hal (List.not_mem_nil a)

/-- A list containing the empty-string address always aborts the loop:
_get_erc20_txs raises ValueError there, which the loop does not catch. -/
theorem get_erc20_txs_empty_addr_aborts (fetch : String → FetchResult)
    (l : List String) (st : CheckState) (hl : "" ∈ l) :
    ∃ e, get_erc20_txs fetch l st = .error e := by
  induction l generalizing st with
  | nil => exact absurd hl (List.not_mem_nil _)
  | cons a t ih =>
    cases hp : processAddr fetch st a with
    | error e => exact ⟨e, get_erc20_txs_cons_err fetch a t st e hp⟩
    | ok stm =>
      rcases List.mem_cons.mp hl with heq | hat
      · exfalso
        rw [processAddr_empty fetch st a (by rw [← heq]; rfl)] at hp
        exact absurd hp (by simp)
      · rw [get_erc20_txs_cons_ok fetch a t st stm hp]
        exact ih stm hat

/-- With no transport failures and a dict history, the abort caused by an
empty-string address is specifically the ValueError of _get_erc20_txs. -/
theorem get_erc20_txs_empty_addr_valueError (fetch : String → FetchResult)
    (l : List String) (st : CheckState) (hl : "" ∈ l)
    (hnt : ∀ b, fetch b ≠ .transportError) (hobj : st.history.isObj = true) :
    get_erc20_txs fetch l st = .error .valueError := by
  induction l generalizing st with
  | nil => exact absurd hl (List.not_mem_nil _)
  | cons a t ih =>
    by_cases haE : a.isEmpty
    · exact get_erc20_txs_cons_err fetch a t st .valueError (processAddr_empty fetch st a haE)
    · rw [Bool.not_eq_true] at haE
      have hne : "" ∈ t := by
        rcases List.mem_cons.mp hl with heq | hat
        · exfalso
          rw [← heq] at haE
          exact absurd haE (by decide)
        · exact hat
      cases hfa : fetch a with
      | transportError => exact absurd hfa (hnt a)
      | ok txs =>
        cases txs with
        | nil =>
          rw [get_erc20_txs_cons_ok fetch a t st _ (processAddr_noTx fetch st a haE hfa)]
          exact ih (addNotice st a) hne hobj
        | cons tx xs =>
          obtain ⟨entries, hsp⟩ : ∃ entries, st.history = .obj entries := by
            cases hh : st.history with
            | obj entries => exact ⟨entries, rfl⟩
            | str s => rw [hh] at hobj; simp [Json.isObj] at hobj
            | num n => rw [hh] at hobj; simp [Json.isObj] at hobj
            | arr es => rw [hh] at hobj; simp [Json.isObj] at hobj
          by_cases hh : jget entries a = some (.str tx.hash)
          · rw [get_erc20_txs_cons_ok fetch a t st st
              (processAddr_hit fetch st a tx xs entries haE hfa hsp hh)]
            exact ih st hne hobj
          · rw [get_erc20_txs_cons_ok fetch a t st _
              (processAddr_miss fetch st a tx xs entries haE hfa hsp hh)]
            exact ih (recordChange st entries a tx.hash) hne rfl

/-- C6: when a transport or API error occurs while processing some address
of the watch-list, the run aborts and the history file is returned exactly
as it was at the start of the run: to_file is reached only after the loop
completes for all addresses, so in-memory updates of earlier addresses are
never written. -/
theorem run_transport_abort (lines : List String) (fetch : String → FetchResult)
    (fs : FileState) (pre post : List String) (a : String) (st1 : CheckState)
    (hdec : watchList lines = pre ++ a :: post)
    (hpre : get_erc20_txs fetch pre ⟨load_history fs, [], []⟩ = .ok st1)
    (hstep : processAddr fetch st1 a = .error .transport) :
    run (some lines) fetch fs = (fs, .error (.checkFailed .transport)) := by
  have hck : get_erc20_txs fetch (watchList lines) ⟨load_history fs, [], []⟩
      = .error .transport := by
    rw [hdec, get_erc20_txs_append, hpre]
    dsimp only
    exact get_erc20_txs_cons_err fetch a post st1 .transport hstep
  simp [run, hck]

/-- C6 witness: two watched addresses; the first records a change in memory,
the second hits a transport failure, and the file state is returned
untouched. -/
theorem run_transport_abort_witness :
    run (some ["0xa\n", "0xb"])
        (fun s => if s = "0xb" then .transportError else .ok [⟨"h"⟩])
        FileState.absent
      = (FileState.absent, .error (.checkFailed .transport)) :=
  run_transport_abort ["0xa\n", "0xb"]
    (fun s => if s = "0xb" then .transportError else .ok [⟨"h"⟩])
    FileState.absent ["0xa"] [] "0xb"
    ⟨Json.obj [("0xa", Json.str "h")], [("0xa", "h")], []⟩
    rfl rfl rfl

/-- C8: a successful run deletes no history entry: every address with an
entry in the loaded mapping still has an entry in the object written by
to_file, and entries of addresses outside the watch-list are written back
unchanged. -/
theorem run_preserves_history_entries (lines : List String) (fetch : String → FetchResult)
    (fs : FileState) (h0 : List (String × String)) (fs1 : FileState) (out : RunOutput)
    (hload : asStrMap (load_history fs) = some h0)
    (hrun : run (some lines) fetch fs = (fs1, .ok out)) :
    ∃ entries, fs1 = FileState.parsed (Json.obj entries) ∧
      ∀ a v, hget h0 a = some v →
        ∃ w, jget entries a = some w ∧ (a ∉ watchList lines → w = Json.str v) := by
  have hj : load_history fs = strObj h0 := asStrMap_eq_some _ h0 hload
  unfold run at hrun
  dsimp only at hrun
  cases hck : get_erc20_txs fetch (watchList lines) ⟨load_history fs, [], []⟩ with
  | error e =>
    rw [hck] at hrun
    dsimp only at hrun
    exact absurd (congrArg Prod.snd hrun) (by simp)
  | ok st =>
    rw [hck] at hrun
    dsimp only at hrun
    have hfs1 : fs1 = to_file st.history := (congrArg Prod.fst hrun).symm
    rw [hj] at hck
    have hobj : st.history.isObj = true :=
      get_erc20_txs_isObj fetch _ _ st hck (by simp [strObj, Json.isObj])
    obtain ⟨entries, hsp⟩ : ∃ entries, st.history = .obj entries := by
      cases hh : st.history with
      | obj entries => exact ⟨entries, rfl⟩
      | str s => rw [hh] at hobj; simp [Json.isObj] at hobj
      | num n => rw [hh] at hobj; simp [Json.isObj] at hobj
      | arr es => rw [hh] at hobj; simp [Json.isObj] at hobj
    refine ⟨entries, by rw [hfs1, hsp]; rfl, ?_⟩
    intro a v hv
    have hst0 : histAt ⟨strObj h0, [], []⟩ a = some (.str v) := by
      simp [histAt, strObj, jget_map_str, hv]
    obtain ⟨w, hw⟩ := get_erc20_txs_histAt_some fetch _ _ st hck a _ hst0
    refine ⟨w, by simpa [histAt, hsp] using hw, ?_⟩
    intro hnot
    have hfr := get_erc20_txs_histAt_frame fetch _ _ st hck a hnot
    rw [hw, hst0] at hfr
    exact Option.some.inj hfr

/-- C8 witness: the preservation theorem applied to a run that watches one
new address while the loaded history holds an entry for an address outside
the watch-list. -/
theorem run_preserves_history_entries_witness :
    ∃ entries,
      (FileState.parsed (Json.obj [("0xold", Json.str "h0"), ("0xa", Json.str "h1")]))
        = FileState.parsed (Json.obj entries) ∧
      ∀ a v, hget [("0xold", "h0")] a = some v →
        ∃ w, jget entries a = some w ∧ (a ∉ watchList ["0xa\n"] → w = Json.str v) :=
  run_preserves_history_entries ["0xa\n"] (fun _ => .ok [⟨"h1"⟩])
    (FileState.parsed (strObj [("0xold", "h0")])) [("0xold", "h0")]
    (FileState.parsed (Json.obj [("0xold", Json.str "h0"), ("0xa", Json.str "h1")]))
    ⟨[("0xa", "h1")], []⟩ rfl rfl

/-- C10: a blank line in the existing watch-list file becomes the
empty-string address of the deduplicated watch-list, and the run aborts
before to_file is reached, leaving the history file untouched; when no
transport failure intervenes and the loaded history is a dict, the abort is
precisely the uncaught ValueError that _get_erc20_txs raises for the
missing identifier (the loop catches only IndexError). -/
theorem run_blank_line_aborts (lines : List String) (ln : String)
    (fetch : String → FetchResult) (fs : FileState)
    (hln : ln ∈ lines) (hblank : stripNl ln = "") :
    "" ∈ watchList lines ∧
    (∃ e, run (some lines) fetch fs = (fs, .error (.checkFailed e))) ∧
    ((∀ b, fetch b ≠ .transportError) → (load_history fs).isObj = true →
      run (some lines) fetch fs = (fs, .error (.checkFailed .valueError))) := by
  have hmem : "" ∈ lines.map stripNl := hblank ▸ List.mem_map_of_mem stripNl hln
  have hw : "" ∈ watchList lines := mem_dedup _ _ hmem
  refine ⟨hw, ?_, ?_⟩
  · obtain ⟨e, he⟩ := get_erc20_txs_empty_addr_aborts fetch (watchList lines)
      ⟨load_history fs, [], []⟩ hw
    exact ⟨e, by simp [run, he]⟩
  · intro hnt hobj
    have hval := get_erc20_txs_empty_addr_valueError fetch (watchList lines)
      ⟨load_history fs, [], []⟩ hw hnt hobj
    simp [run, hval]

/-- C10 witness: a watch-list file consisting of one blank line; the run
aborts with the uncaught ValueError and the (absent) history file stays
untouched. -/
theorem run_blank_line_aborts_witness :
    "" ∈ watchList ["\n"] ∧
    (∃ e, run (some ["\n"]) (fun _ : String => FetchResult.ok []) FileState.absent
        = (FileState.absent, .error (.checkFailed e))) ∧
    ((∀ b, (fun _ : String => FetchResult.ok []) b ≠ FetchResult.transportError) →
      (load_history FileState.absent).isObj = true →
      run (some ["\n"]) (fun _ : String => FetchResult.ok []) FileState.absent
        = (FileState.absent, .error (.checkFailed .valueError))) :=
  run_blank_line_aborts ["\n"] "\n" (fun _ : String => FetchResult.ok []) FileState.absent
    (by simp) (by decide)

/-- Lookup of a key no member carries gives nothing. -/
theorem plookup_eq_none (l : List (String × JVal)) (k : String)
    (h : ∀ p ∈ l, p.1 ≠ k) : plookup l k = none := by
  induction l with
  | nil => rfl
  | cons p t ih =>
    obtain ⟨k1, v⟩ := p
    rw [plookup, if_neg (h (k1, v) (List.mem_cons_self _ _))]
    exact ih (fun q hq => h q (List.mem_cons_of_mem _ hq))

/-- Popping one key leaves lookups of other keys unchanged. -/
theorem plookup_removeKey_ne (k : String) (l : List (String × JVal)) (a : String)
    (hak : a ≠ k) : plookup (removeKey k l) a = plookup l a := by
  induction l with
  | nil => rfl
  | cons p t ih =>
    obtain ⟨k1, v⟩ := p
    by_cases h1 : k1 = k
    · subst h1
      have hk1a : ¬ k1 = a := fun hh => hak (hh.symm)
      simp only [removeKey, List.filter, beq_self_eq_true, Bool.not_true]
      rw [plookup, if_neg hk1a]
      exact ih
    · have hb : (k1 == k) = false := by simp [h1]
      simp only [removeKey, List.filter, hb, Bool.not_false]
      by_cases h2 : k1 = a
      · rw [plookup, if_pos h2, plookup, if_pos h2]
      · rw [plookup, if_neg h2, plookup, if_neg h2]
        exact ih

/-- A conditional pop leaves lookups of other keys unchanged. -/
theorem plookup_ite_removeKey_ne (c : Bool) (k : String) (l : List (String × JVal))
    (a : String) (hak : a ≠ k) :
    plookup (if c then removeKey k l else l) a = plookup l a := by
  cases c with
  | true => simpa using plookup_removeKey_ne k l a hak
  | false => simp

/-- Membership survives an optional pop. -/
theorem mem_ite_removeKey (c : Bool) (k : String) (l : List (String × JVal))
    (p : String × JVal) (h : p ∈ (if c then removeKey k l else l)) : p ∈ l := by
  cases c with
  | true =>
    simp only [if_true] at h
    exact List.mem_of_mem_filter h
  | false => simpa using h

/-- What a member of the params dict of an address-less call can be: the
identifying entries hold null, every other value is one of the fixed
strings, an integer, the sort string or the key. -/
theorem baseParams_none_mem (apiKey : String) (start_block end_block : Option Int)
    (page offset : Int) (sort : String) (p : String × JVal)
    (hp : p ∈ [("module", JVal.jstr "account"), ("action", JVal.jstr "tokentx"),
      ("contractaddress", optStrVal none), ("address", optStrVal none),
      ("startblock", optIntVal start_block), ("endblock", optIntVal end_block),
      ("page", JVal.jint page), ("offset", JVal.jint offset),
      ("sort", JVal.jstr sort), ("apikey", JVal.jstr apiKey)]) :
    (p.1 = "contractaddress" → p.2 = JVal.jnull) ∧
    (p.2 ≠ JVal.jnull → p.2 = JVal.jstr "account" ∨ p.2 = JVal.jstr "tokentx" ∨
      (∃ n, p.2 = JVal.jint n) ∨ p.2 = JVal.jstr sort ∨ p.2 = JVal.jstr apiKey) := by
  simp only [List.mem_cons, List.not_mem_nil, or_false] at hp
  rcases hp with h|h|h|h|h|h|h|h|h|h
  · subst h
    exact ⟨by simp, fun _ => Or.inl rfl⟩
  · subst h
    exact ⟨by simp, fun _ => Or.inr (Or.inl rfl)⟩
  · subst h
    exact ⟨fun _ => rfl, fun hne => absurd rfl hne⟩
  · subst h
    exact ⟨by simp, fun hne => absurd rfl hne⟩
  · subst h
    refine ⟨by simp, fun hne => Or.inr (Or.inr (Or.inl ?_))⟩
    cases hsb : start_block with
    | none => rw [hsb] at hne; exact absurd rfl hne
    | some n => exact ⟨n, rfl⟩
  · subst h
    refine ⟨by simp, fun hne => Or.inr (Or.inr (Or.inl ?_))⟩
    cases heb : end_block with
    | none => rw [heb] at hne; exact absurd rfl hne
    | some n => exact ⟨n, rfl⟩
  · subst h
    exact ⟨by simp, fun _ => Or.inr (Or.inr (Or.inl ⟨page, rfl⟩))⟩
  · subst h
    exact ⟨by simp, fun _ => Or.inr (Or.inr (Or.inl ⟨offset, rfl⟩))⟩
  · subst h
    exact ⟨by simp, fun _ => Or.inr (Or.inr (Or.inr (Or.inl rfl)))⟩
  · subst h
    exact ⟨by simp, fun _ => Or.inr (Or.inr (Or.inr (Or.inr rfl)))⟩

/-- Members of the request params of an address-less call with a truthy
contract address come from the base dict and never carry the address key. -/
theorem requestParams_none_subset (apiKey v : String)
    (start_block end_block : Option Int) (page offset : Int) (sort : String)
    (hv : v.isEmpty = false) (p : String × JVal)
    (hp : p ∈ requestParams apiKey (some v) none start_block end_block page offset sort) :
    p ∈ [("module", JVal.jstr "account"), ("action", JVal.jstr "tokentx"),
      ("contractaddress", optStrVal none), ("address", optStrVal none),
      ("startblock", optIntVal start_block), ("endblock", optIntVal end_block),
      ("page", JVal.jint page), ("offset", JVal.jint offset),
      ("sort", JVal.jstr sort), ("apikey", JVal.jstr apiKey)] ∧
    (p.1 == "address") = false := by
  rw [requestParams] at hp
  simp only [truthyStr, hv, Bool.not_false, Bool.not_true, if_false, if_true,
    Bool.not_not] at hp
  have hp2 := mem_ite_removeKey _ _ _ p hp
  have hp3 := mem_ite_removeKey _ _ _ p hp2
  have hp4 : p ∈ removeKey "address" _ := hp3
  refine ⟨List.mem_of_mem_filter hp4, ?_⟩
  have := List.mem_filter.mp hp4
  simpa using this.2

/-- Members of the on-wire params never hold null. -/
theorem mem_sentParams (l : List (String × JVal)) (p : String × JVal)
    (h : p ∈ sentParams l) : p ∈ l ∧ p.2 ≠ JVal.jnull := by
  have h2 := List.mem_filter.mp h
  exact ⟨h2.1, by simpa using h2.2⟩

/-- C9: the contractaddress query parameter is populated from the address
argument, never from the contract_address argument.  A call supplying only
a contract address issues a request whose on-wire parameters contain
neither a contractaddress nor an address entry, and (when the supplied
value does not coincide with one of the fixed parameter strings) the
supplied contract-address value appears nowhere among the sent values; a
call supplying an address alongside a non-empty contract address sends the
address value under both the contractaddress and the address parameters. -/
theorem _get_erc20_txs_contractaddress_bug (apiKey v : String)
    (start_block end_block : Option Int) (page offset : Int) (sort : String)
    (hv : v.isEmpty = false) :
    (_get_erc20_txs apiKey (some v) none start_block end_block page offset sort
        = .ok (requestParams apiKey (some v) none start_block end_block page offset sort) ∧
      plookup (sentParams (requestParams apiKey (some v) none start_block end_block
        page offset sort)) "contractaddress" = none ∧
      plookup (sentParams (requestParams apiKey (some v) none start_block end_block
        page offset sort)) "address" = none ∧
      (v ≠ "account" → v ≠ "tokentx" → v ≠ sort → v ≠ apiKey →
        ∀ p ∈ sentParams (requestParams apiKey (some v) none start_block end_block
          page offset sort), p.2 ≠ JVal.jstr v)) ∧
    (∀ w, w.isEmpty = false →
      _get_erc20_txs apiKey (some v) (some w) start_block end_block page offset sort
        = .ok (requestParams apiKey (some v) (some w) start_block end_block page offset sort) ∧
      plookup (requestParams apiKey (some v) (some w) start_block end_block page offset sort)
          "contractaddress" = some (.jstr w) ∧
      plookup (requestParams apiKey (some v) (some w) start_block end_block page offset sort)
          "address" = some (.jstr w)) := by
  constructor
  · refine ⟨by simp [_get_erc20_txs, truthyStr, hv], ?_, ?_, ?_⟩
    · apply plookup_eq_none
      intro p hp
      obtain ⟨hpl, hpn⟩ := mem_sentParams _ p hp
      obtain ⟨hbase, _⟩ := requestParams_none_subset apiKey v start_block end_block
        page offset sort hv p hpl
      have hfacts := baseParams_none_mem apiKey start_block end_block page offset sort p hbase
      exact fun hk => hpn (hfacts.1 hk)
    · apply plookup_eq_none
      intro p hp
      obtain ⟨hpl, _⟩ := mem_sentParams _ p hp
      obtain ⟨_, haddr⟩ := requestParams_none_subset apiKey v start_block end_block
        page offset sort hv p hpl
      simpa using haddr
    · intro hacc htok hsort hkey p hp
      obtain ⟨hpl, hpn⟩ := mem_sentParams _ p hp
      obtain ⟨hbase, _⟩ := requestParams_none_subset apiKey v start_block end_block
        page offset sort hv p hpl
      have hfacts := baseParams_none_mem apiKey start_block end_block page offset sort p hbase
      rcases hfacts.2 hpn with h1 | h1 | ⟨n, h1⟩ | h1 | h1
      · rw [h1]
        intro hh
        injection hh with hh
        exact hacc hh.symm
      · rw [h1]
        intro hh
        injection hh with hh
        exact htok hh.symm
      · rw [h1]
        simp
      · rw [h1]
        intro hh
        injection hh with hh
        exact hsort hh.symm
      · rw [h1]
        intro hh
        injection hh with hh
        exact hkey hh.symm
  · intro w hw
    refine ⟨by simp [_get_erc20_txs, truthyStr, hv], ?_, ?_⟩
    · rw [requestParams]
      simp only [truthyStr, hv, hw, Bool.not_false, Bool.not_true, Bool.not_not,
        if_true, if_false]
      rw [plookup_ite_removeKey_ne _ _ _ _ (by decide),
        plookup_ite_removeKey_ne _ _ _ _ (by decide)]
      simp [plookup, optStrVal]
    · rw [requestParams]
      simp only [truthyStr, hv, hw, Bool.not_false, Bool.not_true, Bool.not_not,
        if_true, if_false]
      rw [plookup_ite_removeKey_ne _ _ _ _ (by decide),
        plookup_ite_removeKey_ne _ _ _ _ (by decide)]
      simp [plookup, optStrVal]

/-- C9 witness: a call with only a contract address 0xc sends no
contractaddress parameter at all, while a call with contract address 0xc
and address 0xd sends 0xd under both identifying parameters. -/
theorem _get_erc20_txs_contractaddress_bug_witness :
    plookup (sentParams (requestParams "KEY" (some "0xc") none none none 1 10000 "asc"))
        "contractaddress" = none ∧
    plookup (requestParams "KEY" (some "0xc") (some "0xd") none none 1 10000 "asc")
        "contractaddress" = some (.jstr "0xd") ∧
    plookup (requestParams "KEY" (some "0xc") (some "0xd") none none 1 10000 "asc")
        "address" = some (.jstr "0xd") := by
  have h := _get_erc20_txs_contractaddress_bug "KEY" "0xc" none none 1 10000 "asc" (by decide)
  exact ⟨h.1.2.1, (h.2 "0xd" (by decide)).2.1, (h.2 "0xd" (by decide)).2.2⟩

end AddressWatcherModel
